import Mathlib

/-!
# Verification of the Holoscan SDK dataflow-graph lowering and connection-resolution engine

This file gives a shallow embedding, in Lean 4, of the connection-resolution
core of the Holoscan SDK: queue-size resolution and default backpressure
conditions for ports (`GXFExecutor::create_input_port` /
`GXFExecutor::create_output_port`), the topological materialization loop with
cycle mitigation (`GXFExecutor::initialize_fragment`), broadcast insertion
(`GXFExecutor::create_broadcast_components` /
`GXFExecutor::connect_broadcast_to_previous_op`), distributed lowering
(`create_virtual_operators_and_connections` /
`connect_ucx_transmitters_to_virtual_ops`), graph construction
(`Fragment::add_flow`) and thread-pool device validation.

The C++ sources embedded here are `src/core/fragment.cpp` and the executor
translation unit (`gxf_executor.cpp`).  Machine integers are modelled as
`Int`/`Nat` (no overflow is reachable in the modelled logic), fallible code
returns `Except`/`Option`, and the mutable planner state is passed explicitly.
-/

namespace Holoscan

/-! ## IOSpec queue-size sentinels

Modelled from the spec: `io_spec.hpp` is not part of the provided sources; the
spec's queue-size policies {Fixed(n), PrecedingCount, AnySize} are represented
in the code by `int64_t` sentinels.  The executor source documents
`kPrecedingCount = 0` ("If the queue size is 0 (IOSpec::kPrecedingCount)"),
`kSizeOne` is the value 1 used by the cycle mitigation, and `kAnySize` is a
distinct negative sentinel. -/

def kAnySize : Int := -1

def kPrecedingCount : Int := 0

def kSizeOne : Int := 1

/-! ## Port maps and queue-size resolution (`GXFExecutor::create_input_port`)

An edge between two operators carries a port map: each source (output) port
name maps to the set of destination (input) port names.  `std::set` membership
count is 0 or 1, modelled by a membership test. -/

/-- A port map of one graph edge: source port name to the set of target port
names (`OperatorEdgeDataElementType`). -/
abbrev PortMap := List (String × List String)

/-- One pass of the inner loop of the `kPrecedingCount` resolution: iterate the
entries of one predecessor's port map and add `target_ports.count(rx_name)`
for each. -/
def portConnectionCount (pm : PortMap) (rxName : String) : Nat :=
  match pm with
  | [] => 0
  | (_, targets) :: rest =>
      (if rxName ∈ targets then 1 else 0) + portConnectionCount rest rxName

/-- The `connection_count` computed by `create_input_port` when the declared
queue size is `kPrecedingCount`: summed over the port maps of all predecessor
nodes of the operator. -/
def precedingConnectionCount (prevMaps : List PortMap) (rxName : String) : Nat :=
  match prevMaps with
  | [] => 0
  | pm :: rest => portConnectionCount pm rxName + precedingConnectionCount rest rxName

/-- The resolved queue size of an input port, per `create_input_port`
(after the `kAnySize` early return): a `kPrecedingCount` declaration resolves
to the preceding-connection count, anything else is used as declared. -/
def resolvedQueueSize (declared : Int) (prevMaps : List PortMap) (rxName : String) : Int :=
  if declared = kPrecedingCount then (precedingConnectionCount prevMaps rxName : Int)
  else declared

/-- Stated from the spec's words (for claim C4): the number of distinct edges
terminating at exactly the port name `rxName`, over the port maps of all
predecessor nodes.  Each port-map entry whose target set contains `rxName`
is one such edge. -/
def distinctEdgesTerminatingAt (prevMaps : List PortMap) (rxName : String) : Nat :=
  ((prevMaps.flatten).filter (fun e => rxName ∈ e.2)).length

/-- The fatal queue-configuration error thrown by `create_input_port`
("Invalid queue size: ... (op: ..., input port: ...)"): it carries the invalid
size, the owning operator's name and the input port's name. -/
structure QueueSizeError where
  queueSize : Int
  opName : String
  portName : String
deriving DecidableEq, Repr

/-- Queue-size handling of `GXFExecutor::create_input_port`: `kAnySize` ports
create no receiver (no resolution happens), otherwise the declared policy is
resolved and a resolved value `< 1` raises the fatal error. -/
def createInputPortQueueSize (opName rxName : String) (declared : Int)
    (prevMaps : List PortMap) : Except QueueSizeError (Option Int) :=
  if declared = kAnySize then Except.ok none
  else
    let qs := resolvedQueueSize declared prevMaps rxName
    if qs < 1 then Except.error ⟨qs, opName, rxName⟩
    else Except.ok (some qs)

/-! ## Default port conditions (`create_input_port` / `create_output_port`) -/

/-- Connector kinds of `IOSpec::ConnectorType` handled by the executor. -/
inductive ConnectorType
  | kDefault
  | kDoubleBuffer
  | kUCX
deriving DecidableEq, Repr

/-- Condition kinds relevant to default condition attachment. -/
inductive ConditionType
  | kMessageAvailable
  | kDownstreamMessageAffordable
  | kNone
deriving DecidableEq, Repr

/-- A default condition attached by port creation, with its `min_size`. -/
structure DefaultCondition where
  ctype : ConditionType
  minSize : Int
deriving DecidableEq, Repr

/-- Default input condition attachment of `create_input_port`: when the port's
condition list is empty, and the port is neither part of a declared multi-port
condition group (`op->spec()->multi_port_conditions()`) nor listed among the
ports with a user-supplied condition (`op->non_default_input_ports()`), a
`kMessageAvailable` condition with `min_size` equal to the resolved queue size
is attached. -/
def defaultInputCondition (conditions : List ConditionType)
    (multiPortConditionGroups : List (List String))
    (nonDefaultInputPorts : List String) (rxName : String) (queueSize : Int) :
    Option DefaultCondition :=
  if conditions.isEmpty then
    if multiPortConditionGroups.any (fun grp => rxName ∈ grp) then none
    else if rxName ∈ nonDefaultInputPorts then none
    else some ⟨ConditionType.kMessageAvailable, queueSize⟩
  else none

/-- Default output condition attachment of `create_output_port`: when the
port's condition list is empty and the connector type is not `kUCX`, and the
port is not listed among the ports with a user-supplied condition, a
`kDownstreamMessageAffordable` condition with `min_size = 1` is attached. -/
def defaultOutputCondition (conditions : List ConditionType) (txType : ConnectorType)
    (nonDefaultOutputPorts : List String) (txName : String) :
    Option DefaultCondition :=
  if conditions.isEmpty then
    if txType = ConnectorType.kUCX then none
    else if txName ∈ nonDefaultOutputPorts then none
    else some ⟨ConditionType.kDownstreamMessageAffordable, 1⟩
  else none

/-! ## The operator graph and the topological materialization loop
(`GXFExecutor::initialize_fragment`)

Operators are identified by natural-number ids listed in insertion order
(`graph.get_nodes()`).  An edge carries its port map; the underlying
`FlowGraph` stores at most one edge record per ordered operator pair
(repeated `add_flow` calls merge port maps), captured by the well-formedness
condition below. -/

/-- One edge of the operator graph: source node, destination node, port map. -/
structure FlowEdge where
  src : Nat
  dst : Nat
  portMap : PortMap
deriving DecidableEq, Repr

/-- The operator graph: nodes in insertion order plus the edge records. -/
structure OpGraph where
  nodes : List Nat
  edges : List FlowEdge
deriving DecidableEq, Repr

/-- `graph.get_previous_nodes(n)`: the distinct predecessor nodes of `n`. -/
def prevNodes (g : OpGraph) (n : Nat) : List Nat :=
  (g.edges.filter (fun e => e.dst = n)).map (fun e => e.src)

/-- `graph.get_next_nodes(n)`: the distinct successor nodes of `n`. -/
def nextNodes (g : OpGraph) (n : Nat) : List Nat :=
  (g.edges.filter (fun e => e.src = n)).map (fun e => e.dst)

/-- Well-formedness of the graph data: node ids are distinct, edge endpoints
are registered nodes, and there is at most one edge record per ordered pair of
nodes (the `FlowGraph` keys its successor/predecessor maps by node). -/
def WellFormed (g : OpGraph) : Prop :=
  g.nodes.Nodup ∧
  (∀ e ∈ g.edges, e.src ∈ g.nodes ∧ e.dst ∈ g.nodes) ∧
  (g.edges.map (fun e => (e.src, e.dst))).Nodup

instance (g : OpGraph) : Decidable (WellFormed g) := by
  unfold WellFormed; infer_instance

/-- Acyclicity of the operator graph, characterized by a ranking function that
strictly increases along every edge (equivalent, for finite graphs, to the
absence of directed cycles). -/
def Acyclic (g : OpGraph) : Prop :=
  ∃ rank : Nat → Nat, ∀ e ∈ g.edges, rank e.src < rank e.dst

/-- The successor-processing loop at the end of each visit of
`initialize_fragment`: for each next node of the visited operator, decrement
its indegree and push it onto the worklist when the indegree reaches zero. -/
def processSuccs : List Nat → (Nat → Int) → List Nat → ((Nat → Int) × List Nat)
  | [], indeg, wl => (indeg, wl)
  | s :: rest, indeg, wl =>
      let d := indeg s - 1
      processSuccs rest (fun m => if m = s then d else indeg m)
        (if d = 0 then wl ++ [s] else wl)

/-- The worklist loop of `initialize_fragment`, reduced to the state that
determines the visit order: the FIFO worklist, the indegree table and the
ordered list of visited (initialized) nodes.  An empty worklist with
unvisited nodes remaining triggers the cycle-break fallback (re-enqueue every
node with nonzero indegree, in insertion order, zeroing its indegree); a
popped node that was already visited is skipped.  The `fuel` argument bounds
the iteration count of the C++ `while (true)` loop. -/
def planLoop (g : OpGraph) : Nat → List Nat → (Nat → Int) → List Nat → List Nat
  | 0, _, _, vis => vis
  | Nat.succ fuel, [], indeg, vis =>
      if vis.length = g.nodes.length then vis
      else
        planLoop g fuel (g.nodes.filter (fun n => indeg n ≠ 0))
          (fun m => if indeg m ≠ 0 then 0 else indeg m) vis
  | Nat.succ fuel, op :: rest, indeg, vis =>
      if op ∈ vis then planLoop g fuel rest indeg vis
      else
        let p := processSuccs (nextNodes g op) indeg rest
        planLoop g fuel p.2 p.1 (vis ++ [op])

/-- The initial indegree table: the number of distinct predecessor nodes. -/
def initIndeg (g : OpGraph) : Nat → Int :=
  fun n => ((prevNodes g n).length : Int)

/-- The initial worklist: indegree-zero nodes in insertion order. -/
def initialQueue (g : OpGraph) : List Nat :=
  g.nodes.filter (fun n => (prevNodes g n).length = 0)

/-- An iteration bound large enough for every run of the loop (each iteration
either visits a node, skips a popped node, or applies the cycle break). -/
def planFuel (g : OpGraph) : Nat :=
  (g.nodes.length + 1) * (g.nodes.length + 1)

/-- The order in which `initialize_fragment` visits (and initializes) the
operators of the fragment graph. -/
def visitOrder (g : OpGraph) : List Nat :=
  planLoop g (planFuel g) (initialQueue g) (initIndeg g) []

/-! ### The worklist-loop invariant -/

/-- The invariant of the `initialize_fragment` worklist loop: visited nodes
are distinct registered nodes; the worklist holds distinct unvisited
registered nodes; the indegree of a node is its predecessor count minus its
visited-predecessor count; an unvisited node sits on the worklist exactly
when its indegree is zero; and the visit order is topological so far. -/
structure PlanInv (g : OpGraph) (wl : List Nat) (indeg : Nat → Int)
    (vis : List Nat) : Prop where
  visNodup : vis.Nodup
  visSub : ∀ n ∈ vis, n ∈ g.nodes
  wlNodup : wl.Nodup
  wlSub : ∀ n ∈ wl, n ∈ g.nodes
  wlVis : ∀ n ∈ wl, n ∉ vis
  indegEq : ∀ n ∈ g.nodes,
      indeg n = ((prevNodes g n).length : Int)
        - (((prevNodes g n).filter (fun p => p ∈ vis)).length : Int)
  wlIffZero : ∀ n ∈ g.nodes, n ∉ vis → (n ∈ wl ↔ indeg n = 0)
  edgeOrder : ∀ e ∈ g.edges, e.dst ∈ vis →
      e.src ∈ vis ∧ vis.indexOf e.src < vis.indexOf e.dst

/-! ## Cycle mitigation (`initialize_fragment`, cycle-detection block)

When a popped operator has an input execution port and one of its predecessors
is itself or is not yet visited, the planner overrides the input execution
port's queue size to `kSizeOne`, switches the metadata policy to `kUpdate`,
and, for a self-cycle, sets the output execution port's condition to
`kNone`. -/

/-- Metadata merge policies (`MetadataPolicy`); `kUpdate` is the value set by
the cycle mitigation, `kRaise` stands for the unmitigated default. -/
inductive MetadataPolicy
  | kRaise
  | kUpdate
deriving DecidableEq, Repr

/-- An execution port's state: its queue size and its condition kind. -/
structure ExecPortSpec where
  queueSize : Int
  conditionKind : ConditionType
deriving DecidableEq, Repr

/-- The per-operator state touched by the cycle mitigation: the optional input
and output execution ports (`op->input_exec_spec()` may be null), the data
input ports' queue sizes, and the metadata policy. -/
structure OpPlanState where
  inputExec : Option ExecPortSpec
  outputExec : Option ExecPortSpec
  dataInputQueueSizes : List (String × Int)
  metadataPolicy : MetadataPolicy
deriving DecidableEq, Repr

/-- The cycle-detection loop over the predecessors of the visited operator:
returns (cycle detected, self cycle).  A predecessor equal to the operator
sets both flags and breaks; an unvisited predecessor sets the first flag. -/
def detectCycleLoop (opId : Nat) (visited : List Nat) : List Nat → Bool × Bool
  | [] => (false, false)
  | p :: rest =>
      if p = opId then (true, true)
      else
        let r := detectCycleLoop opId visited rest
        (decide (p ∉ visited) || r.1, r.2)

/-- The cycle mitigation applied while visiting one operator: nothing happens
unless the operator has an input execution port; otherwise, on a detected
cycle, the input execution port's queue size becomes `kSizeOne` and the
metadata policy `kUpdate`, and on a self-cycle the output execution port's
condition becomes `kNone`. -/
def mitigateCycle (opId : Nat) (prevOps : List Nat) (visited : List Nat)
    (st : OpPlanState) : OpPlanState :=
  match st.inputExec with
  | none => st
  | some ies =>
      let r := detectCycleLoop opId visited prevOps
      if r.1 then
        let st1 : OpPlanState :=
          { st with
            inputExec := some { ies with queueSize := kSizeOne },
            metadataPolicy := MetadataPolicy.kUpdate }
        if r.2 then
          { st1 with
            outputExec := st1.outputExec.map
              (fun oes => { oes with conditionKind := ConditionType.kNone }) }
        else st1
      else st

/-! ## Direct-connection emission while visiting an operator
(`initialize_fragment`, predecessor loop and downstream-connection pass)

The predecessor loop wires each already-initialized, non-virtual predecessor's
output connectors to the visited operator's inputs, skipping a predecessor
equal to the operator itself; the downstream pass then wires the visited
operator's non-UCX output connections to every already-initialized successor
(the deferred wiring used for cycles).  Connections are modelled as the flat
list of (source op, source port, target op, target port) tuples emitted by
`add_connection`; the grouping of the C++ `connections` map by source
component id does not change which connections are emitted. -/

/-- A materialized `nvidia::gxf::Connection`: source and target connector. -/
structure DirectConnection where
  srcOp : Nat
  srcPort : String
  dstOp : Nat
  dstPort : String
deriving DecidableEq, Repr

/-- Connections emitted for one predecessor's port map (inner loops of the
predecessor loop): skipped entirely for UCX source connectors; emitted only
when the predecessor is initialized. -/
def predPortMapConnections (op : Nat) (prevOp : Nat) (pm : PortMap)
    (initialized : Nat → Bool) (connectorTypeOf : Nat → String → ConnectorType) :
    List DirectConnection :=
  pm.flatMap (fun entry =>
    if connectorTypeOf prevOp entry.1 ≠ ConnectorType.kUCX then
      if initialized prevOp then
        entry.2.map (fun target => ⟨prevOp, entry.1, op, target⟩)
      else []
    else [])

/-- The predecessor loop of `initialize_fragment`: a predecessor equal to the
visited operator is skipped ("GXF has an issue with self-connections"), as are
virtual predecessors (and everything when the visited operator is virtual). -/
def predLoopConnections (op : Nat) (preds : List (Nat × PortMap))
    (initialized : Nat → Bool) (isVirtual : Nat → Bool)
    (connectorTypeOf : Nat → String → ConnectorType) : List DirectConnection :=
  preds.flatMap (fun pr =>
    if pr.1 = op then []
    else if isVirtual pr.1 || isVirtual op then []
    else predPortMapConnections op pr.1 pr.2 initialized connectorTypeOf)

/-- The downstream-connection pass of `initialize_fragment`: the visited
operator's outgoing connections (collected over its successors' port maps,
skipped when the visited operator is virtual) are wired immediately for every
target whose operator is already initialized, unless the source connector is
UCX.  This is the deferred wiring used for cycles. -/
def downstreamConnections (op : Nat) (succs : List (Nat × PortMap))
    (initialized : Nat → Bool) (isVirtual : Nat → Bool)
    (connectorTypeOf : Nat → String → ConnectorType) : List DirectConnection :=
  if isVirtual op then []
  else
    succs.flatMap (fun su =>
      su.2.flatMap (fun entry =>
        if connectorTypeOf op entry.1 ≠ ConnectorType.kUCX then
          entry.2.filterMap (fun target =>
            if initialized su.1 then some ⟨op, entry.1, su.1, target⟩ else none)
        else []))

/-- All direct connections emitted during the visit of one operator. -/
def visitConnections (op : Nat) (preds succs : List (Nat × PortMap))
    (initialized : Nat → Bool) (isVirtual : Nat → Bool)
    (connectorTypeOf : Nat → String → ConnectorType) : List DirectConnection :=
  predLoopConnections op preds initialized isVirtual connectorTypeOf
    ++ downstreamConnections op succs initialized isVirtual connectorTypeOf

/-! ## Broadcast insertion (`create_broadcast_components`,
`connect_broadcast_to_previous_op`)

While visiting an operator, its downstream connections are collected into a
map keyed by source port (the `connections` map keyed by source component id,
whose value stores the source name, the connector type, and the
`std::set` of (target operator, target port) pairs).  A Broadcast entity is
created for a source port only when `target_op_has_ucx_connector` holds for
the visited operator — some collected connection has a UCX connector type or
some successor is a virtual operator — and the port has at least two targets. -/

/-- The state of one output port needed by broadcast planning: connector type,
connector capacity and policy, and the `min_size` of its
downstream-affordable condition when one exists. -/
structure OutPortState where
  name : String
  connectorType : ConnectorType
  capacity : Nat
  policy : Nat
  condMinSize : Option Nat
deriving DecidableEq, Repr

/-- Look up an output port's state by name. -/
def findOutPort (outPorts : List OutPortState) (port : String) : Option OutPortState :=
  outPorts.find? (fun ps => ps.name = port)

/-- One collected entry of the `connections` map: source port name, connector
type, accumulated target set (kept in insertion order). -/
abbrev ConnEntry := String × ConnectorType × List (Nat × String)

/-- Insert one (target operator, target port) pair into the `connections`
map, creating the per-port entry on first use (`std::set::insert` ignores
duplicates). -/
def addConnTarget : List ConnEntry → String → ConnectorType → (Nat × String) →
    List ConnEntry
  | [], port, ct, t => [(port, ct, [t])]
  | c :: rest, port, ct, t =>
      if c.1 = port then
        (c.1, c.2.1, if t ∈ c.2.2 then c.2.2 else c.2.2 ++ [t]) :: rest
      else c :: addConnTarget rest port ct t

/-- Accumulate the targets of one port-map entry into the map. -/
def addEntryTargets (acc : List ConnEntry) (port : String) (ct : ConnectorType)
    (nextOp : Nat) : List String → List ConnEntry
  | [] => acc
  | t :: ts => addEntryTargets (addConnTarget acc port ct (nextOp, t)) port ct nextOp ts

/-- Accumulate one successor's port map into the map. -/
def addPortMapConns (outPorts : List OutPortState) (acc : List ConnEntry)
    (nextOp : Nat) : PortMap → List ConnEntry
  | [] => acc
  | entry :: rest =>
      let ct := ((findOutPort outPorts entry.1).map (fun ps => ps.connectorType)).getD
        ConnectorType.kDefault
      addPortMapConns outPorts
        (addEntryTargets acc entry.1 ct nextOp entry.2) nextOp rest

/-- The `connections` map collected over all successors of the visited
operator; empty when the visited operator is virtual. -/
def buildConnections (opVirtual : Bool) (outPorts : List OutPortState) :
    List (Nat × Bool × PortMap) → List ConnEntry → List ConnEntry
  | [], acc => acc
  | su :: rest, acc =>
      buildConnections opVirtual outPorts rest
        (if opVirtual then acc else addPortMapConns outPorts acc su.1 su.2.2)

/-- `target_op_has_ucx_connector`: some collected connection has a UCX
connector type, or some successor operator is virtual. -/
def targetHasUcxConnector (conns : List ConnEntry)
    (succs : List (Nat × Bool × PortMap)) : Bool :=
  conns.any (fun c => c.2.1 = ConnectorType.kUCX) || succs.any (fun su => su.2.1)

/-- The default queue policy (`holoscan::gxf::get_default_queue_policy()`).
Modelled from the spec: the helper is not part of the provided sources; the
spec's overflow policies are {Pop, Reject, Fault} and the default is the
fault policy, encoded as 2. -/
def defaultQueuePolicy : Nat := 2

/-- A synthetic Broadcast entity created for a fanned-out source port: its
single receiver is configured with the source connector's capacity and
policy and with the `min_size` of the source port's downstream-affordable
condition (1 when none exists). -/
structure BroadcastEntity where
  port : String
  rxCapacity : Nat
  rxPolicy : Nat
  rxMinSize : Nat
deriving DecidableEq, Repr

/-- `create_broadcast_components`: for every collected source port with at
least two targets, create one Broadcast entity whose receiver replicates the
source connector's capacity/policy and the source condition's `min_size`.
Ports with zero targets only log an error; ports with one target are
skipped. -/
def createBroadcastComponents (outPorts : List OutPortState)
    (conns : List ConnEntry) : List BroadcastEntity :=
  conns.filterMap (fun c =>
    if c.2.2.length ≤ 1 then none
    else
      some
        { port := c.1,
          rxCapacity := ((findOutPort outPorts c.1).map (fun ps => ps.capacity)).getD 1,
          rxPolicy := ((findOutPort outPorts c.1).map (fun ps => ps.policy)).getD
            defaultQueuePolicy,
          rxMinSize := ((findOutPort outPorts c.1).bind (fun ps => ps.condMinSize)).getD 1 })

/-- The Broadcast entities created while visiting one operator: only when
`target_op_has_ucx_connector` holds. -/
def planOpBroadcasts (opVirtual : Bool) (outPorts : List OutPortState)
    (succs : List (Nat × Bool × PortMap)) : List BroadcastEntity :=
  let conns := buildConnections opVirtual outPorts succs []
  if targetHasUcxConnector conns succs then createBroadcastComponents outPorts conns
  else []

/-- `connect_broadcast_to_previous_op` (double-buffer branch): one transmitter
per destination is added to the Broadcast entity, with a
`DownstreamReceptiveSchedulingTerm` whose `min_size` clones the source port's
downstream-affordable condition when that condition exists (`none` when the
source port has no such condition, in which case no term is created). -/
def broadcastTxMinSizes (ps : OutPortState) (targets : List (Nat × String)) :
    List ((Nat × String) × Option Nat) :=
  targets.map (fun t => (t, ps.condMinSize))

/-! ## Thread-pool device validation (`initialize_fragment`, epilogue)

For each thread pool, the operators are scanned in order; the first operator
with a GPU device id seeds `gpu_device`, and any later operator whose device
id differs triggers a fatal error. -/

/-- A thread-pool member: operator name and the GPU device id resolved from
its components (`gxf_device_id`), when any. -/
structure ThreadPoolOp where
  name : String
  devId : Option Int
deriving DecidableEq, Repr

/-- The data interpolated into the fatal thread-pool device mismatch message:
the pool name, the name of the operator at which the mismatch was detected,
its device id, and the previously seen device id. -/
structure DeviceConflictError where
  poolName : String
  opName : String
  currentDevId : Int
  priorDevId : Int
deriving DecidableEq, Repr

/-- The device-validation scan over a pool's operators; `gpuDevice = -1`
means no device id has been seen yet. -/
def checkPoolDevicesLoop (poolName : String) (gpuDevice : Int) :
    List ThreadPoolOp → Except DeviceConflictError Unit
  | [] => Except.ok ()
  | op :: rest =>
      match op.devId with
      | none => checkPoolDevicesLoop poolName gpuDevice rest
      | some d =>
          if gpuDevice = -1 then checkPoolDevicesLoop poolName d rest
          else if gpuDevice ≠ d then Except.error ⟨poolName, op.name, d, gpuDevice⟩
          else checkPoolDevicesLoop poolName gpuDevice rest

/-- The device validation of one thread pool. -/
def checkPoolDevices (poolName : String) (ops : List ThreadPoolOp) :
    Except DeviceConflictError Unit :=
  checkPoolDevicesLoop poolName (-1) ops

/-- The device ids present among a pool's members. -/
def presentDevIds (ops : List ThreadPoolOp) : List Int :=
  ops.filterMap (fun op => op.devId)

/-! ## `Fragment::add_flow` with empty port pairs

With empty `port_pairs`, `add_flow` first checks for a control-flow addition
(no data inputs downstream, or an input execution port); otherwise an
upstream operator with more than one output port, or a downstream operator
with more than one input port, makes the mapping ambiguous: an error naming
the candidate port labels is logged and the function returns without adding
an edge — no exception is thrown, so composition continues. -/

/-- The error log records emitted by the empty-`port_pairs` branch. -/
inductive AddFlowLog
  | ambiguousOutputs (candidates : List String)
  | ambiguousInputs (candidates : List String)
  | controlFlowTypeMismatch (upName downName : String)
deriving DecidableEq, Repr

/-- The observable outcome of the empty-`port_pairs` branch of `add_flow`:
the port pairs it proceeds with (none when it returns early), the error log
record (if any), and whether an exception escaped to the caller (`add_flow`
only logs and returns, it never throws on this path). -/
structure AddFlowResult where
  portPairs : Option (List (String × String))
  errorLog : Option AddFlowLog
  raisedException : Bool
deriving DecidableEq, Repr

/-- The execution-port names used for control-flow edges
(`Operator::kOutputExecPortName` / `kInputExecPortName`).  Modelled from the
spec: `operator.hpp` is not part of the provided sources; the exact constants
are irrelevant to the claims. -/
def kOutputExecPortName : String := "__output_exec__"

def kInputExecPortName : String := "__input_exec__"

/-- The empty-`port_pairs` logic of `Fragment::add_flow` (control-flow
defaulting, ambiguity checks, and single-port defaulting). -/
def addFlowEmptyPortPairs (upName downName : String) (upNative downNative : Bool)
    (upOutputs downInputs : List String) (downHasInputExec : Bool) : AddFlowResult :=
  if downInputs.isEmpty || downHasInputExec then
    if upNative && downNative then
      { portPairs := some [(kOutputExecPortName, kInputExecPortName)],
        errorLog := none, raisedException := false }
    else
      { portPairs := none,
        errorLog := some (AddFlowLog.controlFlowTypeMismatch upName downName),
        raisedException := false }
  else if 1 < upOutputs.length then
    { portPairs := none, errorLog := some (AddFlowLog.ambiguousOutputs upOutputs),
      raisedException := false }
  else if 1 < downInputs.length then
    { portPairs := none, errorLog := some (AddFlowLog.ambiguousInputs downInputs),
      raisedException := false }
  else
    { portPairs := some [("", "")], errorLog := none, raisedException := false }

/-! ## Distributed lowering (`create_virtual_operators_and_connections`,
`connect_ucx_transmitters_to_virtual_ops`)

Each pending connection item of a fragment names an operator port and its
direction.  An output item becomes a `VirtualTransmitterOp` with a flow from
the real port; an input item becomes a `VirtualReceiverOp` plus a `ForwardOp`
whose `in` connector receives the UCX connector, with flows
virtual-receiver → forward-op.in and forward-op.out → destination port.
Afterwards, a virtual transmitter whose upstream port has exactly one
connection collapses: the UCX connector is set directly on the real output
port. -/

/-- The direction of a pending connection item. -/
inductive IOType
  | kInput
  | kOutput
deriving DecidableEq, Repr

/-- A pending inter-fragment connection item (`holoscan::ConnectionItem`,
its name split into operator and port). -/
structure ConnItem where
  opName : String
  portName : String
  io : IOType
deriving DecidableEq, Repr

/-- A flow added by the lowering: source operator, destination operator, and
the port pairs. -/
structure DistFlow where
  src : String
  dst : String
  pairs : List (String × String)
deriving DecidableEq, Repr

/-- The kind of a synthetic virtual operator. -/
inductive VirtualOpKind
  | transmitter
  | receiver
deriving DecidableEq, Repr

/-- A synthetic virtual operator created by the lowering. -/
structure VirtualOpModel where
  name : String
  portName : String
  kind : VirtualOpKind
deriving DecidableEq, Repr

/-- The result of `create_virtual_operators_and_connections`: the virtual
operators, the flows added to the fragment, and the names of the forward
operators whose `in` connector was set to the UCX connector. -/
structure LoweringResult where
  virtualOps : List VirtualOpModel
  flows : List DistFlow
  forwardInConnectorSet : List String
deriving DecidableEq, Repr

/-- The name of the `idx`-th virtual operator for a port. -/
def virtualOpName (opName portName : String) (idx : Nat) : String :=
  "virtual_" ++ opName ++ "_" ++ portName ++ "_" ++ toString idx

/-- The forward operator's name: indexed (`name:i`) when the destination port
is an indexed multi-receiver parameter or absent, plain otherwise. -/
def forwardOpName (opName portName : String) (paramIndex : Option Nat) : String :=
  match paramIndex with
  | none => "forward_" ++ opName ++ "_" ++ portName
  | some i => "forward_" ++ opName ++ "_" ++ portName ++ ":" ++ toString i

/-- Lowering of one connection item, given its occurrence index and a lookup
of the destination operator's declared input queue sizes (`none` when the
port name is not a declared input).  An absent or `kAnySize` port denotes an
indexed multi-receiver parameter; the existing-receiver count of the
parameter is taken as zero here (a fresh fragment has none). -/
def lowerItem (item : ConnItem) (idx : Nat)
    (inputQueueSize : String → String → Option Int) :
    VirtualOpModel × List DistFlow × List String :=
  match item.io with
  | IOType.kOutput =>
      let vname := virtualOpName item.opName item.portName idx
      (⟨vname, item.portName, VirtualOpKind.transmitter⟩,
       [⟨item.opName, vname, [(item.portName, item.portName)]⟩], [])
  | IOType.kInput =>
      let vname := virtualOpName item.opName item.portName idx
      let paramIndex : Option Nat :=
        match inputQueueSize item.opName item.portName with
        | none => some 0
        | some q => if q = kAnySize then some 0 else none
      let fwd := forwardOpName item.opName item.portName paramIndex
      (⟨vname, item.portName, VirtualOpKind.receiver⟩,
       [⟨vname, fwd, [(item.portName, "in")]⟩, ⟨fwd, item.opName, [("out", item.portName)]⟩],
       [fwd])

/-- `create_virtual_operators_and_connections` over the flattened connection
items, numbering repeated items of the same (operator, port) pair. -/
def lowerConnectionItemsGo (inputQueueSize : String → String → Option Int) :
    List ConnItem → List ConnItem → LoweringResult
  | [], _ => ⟨[], [], []⟩
  | item :: rest, processed =>
      let idx := (processed.filter
        (fun p => p.opName = item.opName ∧ p.portName = item.portName)).length
      let r := lowerItem item idx inputQueueSize
      let tail := lowerConnectionItemsGo inputQueueSize rest (processed ++ [item])
      ⟨r.1 :: tail.virtualOps, r.2.1 ++ tail.flows, r.2.2 ++ tail.forwardInConnectorSet⟩

/-- The lowering of a fragment's pending connection items. -/
def lowerConnectionItems (inputQueueSize : String → String → Option Int)
    (items : List ConnItem) : LoweringResult :=
  lowerConnectionItemsGo inputQueueSize items []

/-- The connection count of `connect_ucx_transmitters_to_virtual_ops`: the
number of successor operators of `src` whose port map contains the key
`port`. -/
def countPortConnections (flows : List DistFlow) (src : String) (port : String) : Nat :=
  ((flows.filter (fun f => f.src = src)).filter
    (fun f => f.pairs.any (fun pr => pr.1 = port))).length

/-- `connect_ucx_transmitters_to_virtual_ops`: for each virtual transmitter,
when its upstream operator's port connects to exactly one destination, the
UCX connector is set directly on the real output port; the returned list
holds the (operator, port) pairs so collapsed. -/
def connectUcxTransmitters (flows : List DistFlow) (vops : List VirtualOpModel) :
    List (String × String) :=
  vops.filterMap (fun v =>
    match v.kind with
    | VirtualOpKind.receiver => none
    | VirtualOpKind.transmitter =>
        match (flows.filter (fun f => f.dst = v.name)).head? with
        | none => none
        | some f =>
            if countPortConnections flows f.src v.portName = 1 then some (f.src, v.portName)
            else none)

/-! ## Theorems -/

/-! ## Theorems for claims C4, C5, C6 -/

theorem portConnectionCount_eq_filter (pm : PortMap) (rxName : String) :
    portConnectionCount pm rxName = (pm.filter (fun e => rxName ∈ e.2)).length := by
  induction pm with
  | nil => rfl
  | cons hd tl ih =>
      obtain ⟨src, targets⟩ := hd
      by_cases h : rxName ∈ targets
      · simp [portConnectionCount, List.filter, h, ih, Nat.add_comm]
      · simp [portConnectionCount, List.filter, h, ih]

theorem precedingConnectionCount_eq_distinctEdges (prevMaps : List PortMap) (rxName : String) :
    precedingConnectionCount prevMaps rxName = distinctEdgesTerminatingAt prevMaps rxName := by
  induction prevMaps with
  | nil => rfl
  | cons pm rest ih =>
      simp [precedingConnectionCount, distinctEdgesTerminatingAt,
        ih, portConnectionCount_eq_filter, List.filter_append]

/-- Claim C4: For every input port whose queue-size policy is `kPrecedingCount`,
the resolved queue size equals the number of distinct edges terminating at
exactly that port name, summed over the port maps of all predecessor nodes of
the owning operator. -/
theorem preceding_count_resolves_to_distinct_edge_count
    (declared : Int) (prevMaps : List PortMap) (rxName : String)
    (h : declared = kPrecedingCount) :
    resolvedQueueSize declared prevMaps rxName
      = (distinctEdgesTerminatingAt prevMaps rxName : Int) := by
  subst h
  simp [resolvedQueueSize, precedingConnectionCount_eq_distinctEdges]

theorem preceding_count_resolves_to_distinct_edge_count_witness :
    resolvedQueueSize kPrecedingCount [[("out", ["in", "other"])], [("o2", ["in"])]] "in"
      = (distinctEdgesTerminatingAt [[("out", ["in", "other"])], [("o2", ["in"])]] "in" : Int) :=
  preceding_count_resolves_to_distinct_edge_count kPrecedingCount
    [[("out", ["in", "other"])], [("o2", ["in"])]] "in" rfl

/-- Claim C5: If an input port's resolved queue size is less than 1, creating the
port raises the fatal queue-configuration error, and the error names the
owning operator and the input port. -/
theorem invalid_queue_size_raises_error
    (opName rxName : String) (declared : Int) (prevMaps : List PortMap)
    (hAny : declared ≠ kAnySize)
    (hLow : resolvedQueueSize declared prevMaps rxName < 1) :
    createInputPortQueueSize opName rxName declared prevMaps
      = Except.error ⟨resolvedQueueSize declared prevMaps rxName, opName, rxName⟩ := by
  simp [createInputPortQueueSize, hAny, hLow]

theorem invalid_queue_size_raises_error_witness :
    createInputPortQueueSize "op_b" "in" kPrecedingCount []
      = Except.error ⟨resolvedQueueSize kPrecedingCount [] "in", "op_b", "in"⟩ :=
  invalid_queue_size_raises_error "op_b" "in" kPrecedingCount [] (by decide) (by decide)

/-- Claim C6: An input port with no user-supplied condition and no multi-port
condition group membership gets a message-available condition with `min_size`
equal to the resolved queue size; an output port with no user-supplied
condition and a non-Transport connector gets a downstream-affordable condition
with `min_size = 1`; an output port with a UCX (Transport) connector gets no
default condition. -/
theorem default_conditions_attached
    (conditions : List ConditionType) (groups : List (List String))
    (ndInputs ndOutputs : List String) (rxName txName : String)
    (queueSize : Int) (txType : ConnectorType)
    (hEmpty : conditions = [])
    (hMulti : ∀ grp ∈ groups, rxName ∉ grp)
    (hUserIn : rxName ∉ ndInputs)
    (hUserOut : txName ∉ ndOutputs)
    (hTx : txType ≠ ConnectorType.kUCX) :
    defaultInputCondition conditions groups ndInputs rxName queueSize
        = some ⟨ConditionType.kMessageAvailable, queueSize⟩ ∧
    defaultOutputCondition conditions txType ndOutputs txName
        = some ⟨ConditionType.kDownstreamMessageAffordable, 1⟩ ∧
    defaultOutputCondition conditions ConnectorType.kUCX ndOutputs txName = none := by
  subst hEmpty
  refine ⟨?_, ?_, ?_⟩
  · have hany : groups.any (fun grp => decide (rxName ∈ grp)) = false := by
      simp only [List.any_eq_false, decide_eq_true_eq]
      exact hMulti
    simp [defaultInputCondition, hany, hUserIn]
  · simp [defaultOutputCondition, hTx, hUserOut]
  · simp [defaultOutputCondition]

theorem default_conditions_attached_witness :
    defaultInputCondition [] [["a", "b"]] ["c"] "in" 4
        = some ⟨ConditionType.kMessageAvailable, 4⟩ ∧
    defaultOutputCondition [] ConnectorType.kDefault ["c"] "out"
        = some ⟨ConditionType.kDownstreamMessageAffordable, 1⟩ ∧
    defaultOutputCondition [] ConnectorType.kUCX ["c"] "out" = none :=
  default_conditions_attached [] [["a", "b"]] ["c"] ["c"] "in" "out" 4
    ConnectorType.kDefault rfl (by decide) (by decide) (by decide) (by decide)

/-! ### Helper lemmas about the graph accessors -/

theorem mem_prevNodes {g : OpGraph} {p n : Nat} :
    p ∈ prevNodes g n ↔ ∃ e ∈ g.edges, e.src = p ∧ e.dst = n := by
  simp only [prevNodes, List.mem_map, List.mem_filter, decide_eq_true_eq]
  constructor
  · rintro ⟨e, ⟨he, hdst⟩, hsrc⟩; exact ⟨e, he, hsrc, hdst⟩
  · rintro ⟨e, he, hsrc, hdst⟩; exact ⟨e, ⟨he, hdst⟩, hsrc⟩

theorem mem_nextNodes {g : OpGraph} {n m : Nat} :
    m ∈ nextNodes g n ↔ ∃ e ∈ g.edges, e.src = n ∧ e.dst = m := by
  simp only [nextNodes, List.mem_map, List.mem_filter, decide_eq_true_eq]
  constructor
  · rintro ⟨e, ⟨he, hsrc⟩, hdst⟩; exact ⟨e, he, hsrc, hdst⟩
  · rintro ⟨e, he, hsrc, hdst⟩; exact ⟨e, ⟨he, hsrc⟩, hdst⟩

theorem mem_nextNodes_iff_mem_prevNodes {g : OpGraph} {n m : Nat} :
    m ∈ nextNodes g n ↔ n ∈ prevNodes g m := by
  rw [mem_nextNodes, mem_prevNodes]

theorem prevList_nodup : ∀ (es : List FlowEdge) (n : Nat),
    (es.map (fun e => (e.src, e.dst))).Nodup →
    ((es.filter (fun e => e.dst = n)).map (fun e => e.src)).Nodup := by
  intro es n
  induction es with
  | nil => intro _; simp
  | cons e rest ih =>
      intro h
      simp only [List.map_cons, List.nodup_cons] at h
      obtain ⟨hpair, hrest⟩ := h
      by_cases hd : e.dst = n
      · rw [List.filter_cons_of_pos (by simp [hd]), List.map_cons, List.nodup_cons]
        refine ⟨?_, ih hrest⟩
        intro hmem
        obtain ⟨e', ⟨he', hd'⟩, hs'⟩ := by
          simpa only [List.mem_map, List.mem_filter, decide_eq_true_eq] using hmem
        apply hpair
        rw [List.mem_map]
        exact ⟨e', he', by rw [hs', hd', hd]⟩
      · rw [List.filter_cons_of_neg (by simp [hd])]
        exact ih hrest

theorem nextList_nodup : ∀ (es : List FlowEdge) (n : Nat),
    (es.map (fun e => (e.src, e.dst))).Nodup →
    ((es.filter (fun e => e.src = n)).map (fun e => e.dst)).Nodup := by
  intro es n
  induction es with
  | nil => intro _; simp
  | cons e rest ih =>
      intro h
      simp only [List.map_cons, List.nodup_cons] at h
      obtain ⟨hpair, hrest⟩ := h
      by_cases hs : e.src = n
      · rw [List.filter_cons_of_pos (by simp [hs]), List.map_cons, List.nodup_cons]
        refine ⟨?_, ih hrest⟩
        intro hmem
        obtain ⟨e', ⟨he', hs'⟩, hd'⟩ := by
          simpa only [List.mem_map, List.mem_filter, decide_eq_true_eq] using hmem
        apply hpair
        rw [List.mem_map]
        exact ⟨e', he', by rw [hd', hs', hs]⟩
      · rw [List.filter_cons_of_neg (by simp [hs])]
        exact ih hrest

theorem prevNodes_nodup (g : OpGraph) (hwf : WellFormed g) (n : Nat) :
    (prevNodes g n).Nodup :=
  prevList_nodup g.edges n hwf.2.2

theorem nextNodes_nodup (g : OpGraph) (hwf : WellFormed g) (n : Nat) :
    (nextNodes g n).Nodup :=
  nextList_nodup g.edges n hwf.2.2

/-! ### Helper lemmas about filters -/

theorem all_of_length_filter_eq {α : Type} (l : List α) (p : α → Bool)
    (h : (l.filter p).length = l.length) : ∀ a ∈ l, p a :=
  List.filter_eq_self.mp ((l.filter_sublist (p := p)).eq_of_length h)

theorem exists_not_of_length_filter_ne {α : Type} (l : List α) (p : α → Bool)
    (h : (l.filter p).length ≠ l.length) : ∃ a ∈ l, ¬ p a := by
  by_contra hc
  push_neg at hc
  apply h
  rw [List.filter_eq_self.mpr (by intro a ha; exact (hc a ha))]

theorem length_filter_mem_append (l vis : List Nat) (op : Nat) (hl : l.Nodup)
    (hop : op ∉ vis) :
    (l.filter (fun a => a ∈ vis ++ [op])).length
      = (l.filter (fun a => a ∈ vis)).length + (if op ∈ l then 1 else 0) := by
  induction l with
  | nil => simp
  | cons a t ih =>
      obtain ⟨hat, ht⟩ := List.nodup_cons.mp hl
      by_cases hao : a = op
      · subst hao
        have h1 : a ∈ vis ++ [a] := List.mem_append_right _ (by simp)
        rw [List.filter_cons_of_pos (by simp [h1]), List.filter_cons_of_neg (by simp [hop]),
          List.length_cons, ih ht]
        simp [hat]
      · have h2 : (a ∈ vis ++ [op]) ↔ (a ∈ vis) := by
          simp only [List.mem_append, List.mem_singleton]
          exact ⟨fun h => h.resolve_right hao, Or.inl⟩
        have h3 : (op ∈ a :: t) ↔ (op ∈ t) := by
          simp only [List.mem_cons]
          exact ⟨fun h => h.resolve_left (fun he => hao he.symm), Or.inr⟩
        by_cases hav : a ∈ vis
        · have h4 : a ∈ vis ++ [op] := List.mem_append_left _ hav
          rw [List.filter_cons_of_pos (by simp [h4]), List.filter_cons_of_pos (by simp [hav]),
            List.length_cons, List.length_cons, ih ht]
          simp [h3]
          omega
        · have h4 : a ∉ vis ++ [op] := fun h => hav (h2.mp h)
          rw [List.filter_cons_of_neg (by simp [h4]), List.filter_cons_of_neg (by simp [hav]),
            ih ht]
          simp [h3]

/-! ### The closed form of the successor-processing loop -/

theorem processSuccs_eq (succs : List Nat) (indeg : Nat → Int) (wl : List Nat)
    (hnd : succs.Nodup) :
    processSuccs succs indeg wl =
      (fun m => if m ∈ succs then indeg m - 1 else indeg m,
       wl ++ succs.filter (fun s => indeg s = 1)) := by
  induction succs generalizing indeg wl with
  | nil => simp [processSuccs]
  | cons s rest ih =>
      obtain ⟨hs, hrest⟩ := List.nodup_cons.mp hnd
      rw [processSuccs, ih _ _ hrest]
      refine Prod.ext ?_ ?_
      · funext m
        by_cases hm : m = s
        · subst hm
          simp [hs]
        · simp only [List.mem_cons]
          by_cases hmr : m ∈ rest
          · simp [hmr, hm]
          · simp [hmr, hm]
      · have hcongr : rest.filter (fun t => (if t = s then indeg s - 1 else indeg t) = 1)
            = rest.filter (fun t => indeg t = 1) := by
          apply List.filter_congr
          intro t htr
          have : t ≠ s := fun he => hs (he ▸ htr)
          simp [this]
        simp only [hcongr]
        by_cases h1 : indeg s = 1
        · have hd : indeg s - 1 = 0 := by omega
          rw [if_pos hd, List.filter_cons_of_pos (by simp [h1]),
            List.append_assoc, List.singleton_append]
        · have hd : ¬(indeg s - 1 = 0) := by omega
          rw [if_neg hd, List.filter_cons_of_neg (by simp [h1])]

theorem planInv_init (g : OpGraph) (hwf : WellFormed g) :
    PlanInv g (initialQueue g) (initIndeg g) [] := by
  refine ⟨List.nodup_nil, ?_, ?_, ?_, ?_, ?_, ?_, ?_⟩
  · intro n hn; simp at hn
  · exact hwf.1.filter _
  · intro n hn; exact List.mem_of_mem_filter hn
  · intro n _; simp
  · intro n _
    simp [initIndeg]
  · intro n hn _
    simp only [initialQueue, List.mem_filter, decide_eq_true_eq, initIndeg]
    constructor
    · rintro ⟨_, h0⟩; omega
    · intro h0; exact ⟨hn, by omega⟩
  · intro e _ hd; simp at hd

/-- With an empty worklist, any unvisited node has an unvisited predecessor
(its indegree is still positive). -/
theorem unvisited_has_unvisited_pred (g : OpGraph) (hwf : WellFormed g)
    (indeg : Nat → Int) (vis : List Nat) (hInv : PlanInv g [] indeg vis) :
    ∀ n ∈ g.nodes, n ∉ vis → ∃ p, p ∈ prevNodes g n ∧ p ∉ vis ∧ p ∈ g.nodes := by
  intro n hn hnv
  have hne : indeg n ≠ 0 := by
    intro h0
    exact (by simp : n ∉ ([] : List Nat)) ((hInv.wlIffZero n hn hnv).mpr h0)
  have heq := hInv.indegEq n hn
  have hle : ((prevNodes g n).filter (fun p => p ∈ vis)).length ≤ (prevNodes g n).length :=
    List.length_filter_le _ _
  have hlt : ((prevNodes g n).filter (fun p => p ∈ vis)).length ≠ (prevNodes g n).length := by
    intro h; rw [heq, h] at hne; omega
  obtain ⟨p, hp, hpb⟩ := exists_not_of_length_filter_ne _ _ hlt
  refine ⟨p, hp, ?_, ?_⟩
  · intro hpv; exact hpb (by simpa using hpv)
  · obtain ⟨e, he, hsrc, _⟩ := mem_prevNodes.mp hp
    exact hsrc ▸ (hwf.2.1 e he).1

/-- Acyclicity rules out a nonempty set of mutually blocked nodes: with an
empty worklist and the invariant, every node is visited. -/
theorem all_visited_of_empty_worklist (g : OpGraph) (hwf : WellFormed g)
    (hac : Acyclic g) (indeg : Nat → Int) (vis : List Nat)
    (hInv : PlanInv g [] indeg vis) :
    ∀ n ∈ g.nodes, n ∈ vis := by
  obtain ⟨rank, hrank⟩ := hac
  have key : ∀ k n, n ∈ g.nodes → n ∉ vis → rank n < k → False := by
    intro k
    induction k with
    | zero => intro n _ _ h; omega
    | succ k ih =>
        intro n hn hnv hrk
        obtain ⟨p, hp, hpv, hpn⟩ := unvisited_has_unvisited_pred g hwf indeg vis hInv n hn hnv
        obtain ⟨e, he, hsrc, hdst⟩ := mem_prevNodes.mp hp
        have hlt : rank p < rank n := by
          have := hrank e he
          rw [hsrc, hdst] at this
          exact this
        exact ih p hpn hpv (by omega)
  intro n hn
  by_contra hnv
  exact key (rank n + 1) n hn hnv (Nat.lt_succ_self _)

/-- Preservation of the loop invariant across one visit: popping the head of
the worklist, visiting it, and running the successor-processing loop. -/
theorem planInv_step (g : OpGraph) (hwf : WellFormed g) (hac : Acyclic g)
    (op : Nat) (rest vis : List Nat) (indeg : Nat → Int)
    (hInv : PlanInv g (op :: rest) indeg vis) :
    PlanInv g (rest ++ (nextNodes g op).filter (fun s => indeg s = 1))
      (fun m => if m ∈ nextNodes g op then indeg m - 1 else indeg m)
      (vis ++ [op]) := by
  have hopWl : op ∈ op :: rest := List.mem_cons_self op rest
  have hopNodes : op ∈ g.nodes := hInv.wlSub op hopWl
  have hopVis : op ∉ vis := hInv.wlVis op hopWl
  have hopNotRest : op ∉ rest := (List.nodup_cons.mp hInv.wlNodup).1
  have hrestNodup : rest.Nodup := (List.nodup_cons.mp hInv.wlNodup).2
  have hop0 : indeg op = 0 := (hInv.wlIffZero op hopNodes hopVis).mp hopWl
  have hpredVis : ∀ p ∈ prevNodes g op, p ∈ vis := by
    have heq := hInv.indegEq op hopNodes
    have hle : ((prevNodes g op).filter (fun p => p ∈ vis)).length
        ≤ (prevNodes g op).length := List.length_filter_le _ _
    have hlen : ((prevNodes g op).filter (fun p => p ∈ vis)).length
        = (prevNodes g op).length := by omega
    intro p hp
    simpa using all_of_length_filter_eq _ _ hlen p hp
  have hNextNodup : (nextNodes g op).Nodup := nextNodes_nodup g hwf op
  have hSelfNot : op ∉ nextNodes g op := by
    intro h
    obtain ⟨e, he, hs, hd⟩ := mem_nextNodes.mp h
    obtain ⟨rank, hrank⟩ := hac
    have := hrank e he
    rw [hs, hd] at this
    omega
  have hSuccNotVis : ∀ s ∈ nextNodes g op, s ∉ vis := by
    intro s hs hsv
    obtain ⟨e, he, hsrc, hdst⟩ := mem_nextNodes.mp hs
    have hdv : e.dst ∈ vis := by rw [hdst]; exact hsv
    have := (hInv.edgeOrder e he hdv).1
    rw [hsrc] at this
    exact hopVis this
  refine ⟨?_, ?_, ?_, ?_, ?_, ?_, ?_, ?_⟩
  · rw [List.nodup_append]
    refine ⟨hInv.visNodup, List.nodup_singleton op, ?_⟩
    intro a ha hb
    simp only [List.mem_singleton] at hb
    subst hb
    exact hopVis ha
  · intro n hn
    rcases List.mem_append.mp hn with h | h
    · exact hInv.visSub n h
    · simp only [List.mem_singleton] at h
      subst h
      exact hopNodes
  · rw [List.nodup_append]
    refine ⟨hrestNodup, hNextNodup.filter _, ?_⟩
    intro t htr htf
    have htwl : t ∈ op :: rest := List.mem_cons_of_mem _ htr
    have h0 : indeg t = 0 :=
      (hInv.wlIffZero t (hInv.wlSub t htwl) (hInv.wlVis t htwl)).mp htwl
    have h1 : indeg t = 1 := by
      have := (List.mem_filter.mp htf).2
      simpa using this
    omega
  · intro n hn
    rcases List.mem_append.mp hn with h | h
    · exact hInv.wlSub n (List.mem_cons_of_mem _ h)
    · obtain ⟨hs, _⟩ := List.mem_filter.mp h
      obtain ⟨e, he, _, hdst⟩ := mem_nextNodes.mp hs
      exact hdst ▸ (hwf.2.1 e he).2
  · intro n hn hmem
    rcases List.mem_append.mp hmem with hv | hv
    · rcases List.mem_append.mp hn with h | h
      · exact hInv.wlVis n (List.mem_cons_of_mem _ h) hv
      · exact hSuccNotVis n (List.mem_filter.mp h).1 hv
    · simp only [List.mem_singleton] at hv
      subst hv
      rcases List.mem_append.mp hn with h | h
      · exact hopNotRest h
      · exact hSelfNot (List.mem_filter.mp h).1
  · intro n hn
    have hprevNd : (prevNodes g n).Nodup := prevNodes_nodup g hwf n
    rw [length_filter_mem_append (prevNodes g n) vis op hprevNd hopVis]
    have hold := hInv.indegEq n hn
    by_cases hno : n ∈ nextNodes g op
    · have hpo : op ∈ prevNodes g n := mem_nextNodes_iff_mem_prevNodes.mp hno
      rw [if_pos hno, if_pos hpo]
      push_cast
      omega
    · have hpo : op ∉ prevNodes g n := fun h =>
        hno (mem_nextNodes_iff_mem_prevNodes.mpr h)
      rw [if_neg hno, if_neg hpo]
      push_cast
      omega
  · intro n hn hnv
    have hnvis : n ∉ vis := fun h => hnv (List.mem_append_left _ h)
    have hnop : n ≠ op := fun h => hnv (List.mem_append_right _ (by simp [h]))
    constructor
    · intro hmem
      rcases List.mem_append.mp hmem with h | h
      · have h0 : indeg n = 0 :=
          (hInv.wlIffZero n hn hnvis).mp (List.mem_cons_of_mem _ h)
        have hnotsucc : n ∉ nextNodes g op := by
          intro hs
          have heq := hInv.indegEq n hn
          have hle : ((prevNodes g n).filter (fun p => p ∈ vis)).length
              ≤ (prevNodes g n).length := List.length_filter_le _ _
          have hlen : ((prevNodes g n).filter (fun p => p ∈ vis)).length
              = (prevNodes g n).length := by omega
          have hpv : ∀ p ∈ prevNodes g n, p ∈ vis := by
            intro p hp
            simpa using all_of_length_filter_eq _ _ hlen p hp
          exact hopVis (hpv op (mem_nextNodes_iff_mem_prevNodes.mp hs))
        rw [if_neg hnotsucc]
        exact h0
      · obtain ⟨hs, h1⟩ := List.mem_filter.mp h
        have h1' : indeg n = 1 := by simpa using h1
        rw [if_pos hs]
        omega
    · intro h0
      by_cases hs : n ∈ nextNodes g op
      · rw [if_pos hs] at h0
        refine List.mem_append_right _ (List.mem_filter.mpr ⟨hs, ?_⟩)
        simp only [decide_eq_true_eq]
        omega
      · rw [if_neg hs] at h0
        have hmem := (hInv.wlIffZero n hn hnvis).mpr h0
        rcases List.mem_cons.mp hmem with h | h
        · exact absurd h hnop
        · exact List.mem_append_left _ h
  · intro e he hdst
    rcases List.mem_append.mp hdst with hv | hv
    · obtain ⟨h1, h2⟩ := hInv.edgeOrder e he hv
      refine ⟨List.mem_append_left _ h1, ?_⟩
      rw [List.indexOf_append_of_mem h1, List.indexOf_append_of_mem hv]
      exact h2
    · simp only [List.mem_singleton] at hv
      have hsrcPrev : e.src ∈ prevNodes g op := mem_prevNodes.mpr ⟨e, he, rfl, hv⟩
      have hsrcVis : e.src ∈ vis := hpredVis _ hsrcPrev
      refine ⟨List.mem_append_left _ hsrcVis, ?_⟩
      rw [List.indexOf_append_of_mem hsrcVis, hv,
        List.indexOf_append_of_not_mem hopVis, List.indexOf_cons_self]
      have := List.indexOf_lt_length.mpr hsrcVis
      omega

/-- The worklist loop, run with enough fuel from any state satisfying the
invariant on an acyclic well-formed graph, returns a duplicate-free
topological enumeration of all nodes. -/
theorem planLoop_result (g : OpGraph) (hwf : WellFormed g) (hac : Acyclic g) :
    ∀ (fuel : Nat) (wl : List Nat) (indeg : Nat → Int) (vis : List Nat),
      PlanInv g wl indeg vis →
      g.nodes.length + 1 ≤ fuel + vis.length →
      (planLoop g fuel wl indeg vis).Nodup ∧
      (∀ n, n ∈ g.nodes ↔ n ∈ planLoop g fuel wl indeg vis) ∧
      (∀ e ∈ g.edges,
        (planLoop g fuel wl indeg vis).indexOf e.src
          < (planLoop g fuel wl indeg vis).indexOf e.dst) := by
  intro fuel
  induction fuel with
  | zero =>
      intro wl indeg vis hInv hfuel
      exfalso
      have hsub : vis ⊆ g.nodes := fun a ha => hInv.visSub a ha
      have := (List.subperm_of_subset hInv.visNodup hsub).length_le
      omega
  | succ fuel ih =>
      intro wl indeg vis hInv hfuel
      cases wl with
      | nil =>
          have hall : ∀ n ∈ g.nodes, n ∈ vis :=
            all_visited_of_empty_worklist g hwf hac indeg vis hInv
          have hlen : vis.length = g.nodes.length := by
            have h1 := (List.subperm_of_subset hInv.visNodup
              (fun a ha => hInv.visSub a ha)).length_le
            have h2 := (List.subperm_of_subset hwf.1
              (fun a ha => hall a ha)).length_le
            omega
          rw [planLoop, if_pos hlen]
          refine ⟨hInv.visNodup, ?_, ?_⟩
          · intro n
            exact ⟨fun h => hall n h, fun h => hInv.visSub n h⟩
          · intro e he
            have hd : e.dst ∈ vis := hall _ (hwf.2.1 e he).2
            exact (hInv.edgeOrder e he hd).2
      | cons op rest =>
          have hopVis : op ∉ vis := hInv.wlVis op (List.mem_cons_self _ _)
          rw [planLoop, if_neg hopVis]
          simp only [processSuccs_eq _ _ _ (nextNodes_nodup g hwf op)]
          apply ih
          · exact planInv_step g hwf hac op rest vis indeg hInv
          · rw [List.length_append, List.length_singleton]
            omega

/-- Claim C3: For every acyclic operator graph, the worklist-based
materialization of `initialize_fragment` visits and initializes every node
exactly once (the visit order is duplicate-free, covers exactly the graph's
nodes), and for every edge `(u, v)` the source `u` is initialized no later
than the destination `v`. -/
theorem acyclic_visits_once_in_topological_order (g : OpGraph)
    (hwf : WellFormed g) (hac : Acyclic g) :
    (∀ n ∈ g.nodes, (visitOrder g).count n = 1) ∧
    (∀ n ∈ visitOrder g, n ∈ g.nodes) ∧
    (∀ e ∈ g.edges, (visitOrder g).indexOf e.src ≤ (visitOrder g).indexOf e.dst) := by
  have hfuel : g.nodes.length + 1 ≤ planFuel g + ([] : List Nat).length := by
    have h : g.nodes.length + 1 ≤ (g.nodes.length + 1) * (g.nodes.length + 1) :=
      Nat.le_mul_of_pos_right _ (Nat.succ_pos _)
    simp only [planFuel, List.length_nil, Nat.add_zero]
    exact h
  obtain ⟨hnd, hmem, hord⟩ :=
    planLoop_result g hwf hac (planFuel g) (initialQueue g) (initIndeg g) []
      (planInv_init g hwf) hfuel
  refine ⟨?_, ?_, ?_⟩
  · intro n hn
    exact List.count_eq_one_of_mem hnd ((hmem n).mp hn)
  · intro n hn
    exact (hmem n).mpr hn
  · intro e he
    exact Nat.le_of_lt (hord e he)

theorem acyclic_visits_once_in_topological_order_witness :
    (∀ n ∈ (OpGraph.mk [5, 7, 9] [⟨5, 7, [("out", ["in"])]⟩, ⟨7, 9, [("out", ["in"])]⟩]).nodes,
      (visitOrder (OpGraph.mk [5, 7, 9]
        [⟨5, 7, [("out", ["in"])]⟩, ⟨7, 9, [("out", ["in"])]⟩])).count n = 1) ∧
    (∀ n ∈ visitOrder (OpGraph.mk [5, 7, 9]
        [⟨5, 7, [("out", ["in"])]⟩, ⟨7, 9, [("out", ["in"])]⟩]),
      n ∈ (OpGraph.mk [5, 7, 9] [⟨5, 7, [("out", ["in"])]⟩, ⟨7, 9, [("out", ["in"])]⟩]).nodes) ∧
    (∀ e ∈ (OpGraph.mk [5, 7, 9] [⟨5, 7, [("out", ["in"])]⟩, ⟨7, 9, [("out", ["in"])]⟩]).edges,
      (visitOrder (OpGraph.mk [5, 7, 9]
        [⟨5, 7, [("out", ["in"])]⟩, ⟨7, 9, [("out", ["in"])]⟩])).indexOf e.src
        ≤ (visitOrder (OpGraph.mk [5, 7, 9]
        [⟨5, 7, [("out", ["in"])]⟩, ⟨7, 9, [("out", ["in"])]⟩])).indexOf e.dst) :=
  acyclic_visits_once_in_topological_order
    (OpGraph.mk [5, 7, 9] [⟨5, 7, [("out", ["in"])]⟩, ⟨7, 9, [("out", ["in"])]⟩])
    (by decide) ⟨fun n => n, by decide⟩

/-! ### Cycle detection and mitigation (claims C2, C10) -/

theorem detectCycleLoop_fst (opId : Nat) (visited : List Nat) (prevs : List Nat) :
    (detectCycleLoop opId visited prevs).1 = true ↔
      ∃ p ∈ prevs, p = opId ∨ p ∉ visited := by
  induction prevs with
  | nil => simp [detectCycleLoop]
  | cons p rest ih =>
      by_cases hp : p = opId
      · subst hp
        simp [detectCycleLoop]
      · simp only [detectCycleLoop, if_neg hp, Bool.or_eq_true, decide_eq_true_eq, ih,
          List.mem_cons]
        constructor
        · rintro (h | ⟨q, hq, hh⟩)
          · exact ⟨p, Or.inl rfl, Or.inr h⟩
          · exact ⟨q, Or.inr hq, hh⟩
        · rintro ⟨q, hq | hq, hh⟩
          · subst hq
            rcases hh with h | h
            · exact absurd h hp
            · exact Or.inl h
          · exact Or.inr ⟨q, hq, hh⟩

theorem detectCycleLoop_snd (opId : Nat) (visited : List Nat) (prevs : List Nat) :
    (detectCycleLoop opId visited prevs).2 = true ↔ opId ∈ prevs := by
  induction prevs with
  | nil => simp [detectCycleLoop]
  | cons p rest ih =>
      by_cases hp : p = opId
      · subst hp
        simp [detectCycleLoop]
      · simp only [detectCycleLoop, if_neg hp, ih, List.mem_cons]
        constructor
        · exact Or.inr
        · rintro (h | h)
          · exact absurd h.symm hp
          · exact h

/-- Claim C2, counterexample: A node on a feedback edge (its predecessor is not
yet finalized when the planner visits it) that has no input execution port
receives no mitigation at all: its data input port keeps its declared queue
size 4 (not 1) and its metadata policy is not switched to update. -/
theorem cycle_mitigation_skips_node_without_exec_port :
    (∃ p ∈ [1], p = 0 ∨ p ∉ ([] : List Nat)) ∧
    mitigateCycle 0 [1] [] ⟨none, none, [("in", 4)], MetadataPolicy.kRaise⟩
      = ⟨none, none, [("in", 4)], MetadataPolicy.kRaise⟩ ∧
    (∀ q ∈ (mitigateCycle 0 [1] []
        ⟨none, none, [("in", 4)], MetadataPolicy.kRaise⟩).dataInputQueueSizes,
      q.2 ≠ 1) ∧
    (mitigateCycle 0 [1] []
        ⟨none, none, [("in", 4)], MetadataPolicy.kRaise⟩).metadataPolicy
      ≠ MetadataPolicy.kUpdate := by
  refine ⟨⟨1, by simp, Or.inr (by simp)⟩, rfl, ?_, by decide⟩
  intro q hq
  simp only [mitigateCycle] at hq
  simp at hq
  rw [hq]
  decide

/-- Claim C2, amended: For any node that has an input execution port and lies
on a feedback edge (some predecessor equals the node or is not yet visited),
the mitigation sets the input execution port's queue size to exactly
`kSizeOne`, switches the metadata policy to `kUpdate`, leaves every data
input port's queue size unchanged, and sets the output execution port's
condition to `kNone` exactly when the feedback is a self-edge. -/
theorem cycle_mitigation_with_exec_port (opId : Nat) (prevOps visited : List Nat)
    (st : OpPlanState) (ies : ExecPortSpec)
    (hexec : st.inputExec = some ies)
    (hfb : ∃ p ∈ prevOps, p = opId ∨ p ∉ visited) :
    (mitigateCycle opId prevOps visited st).inputExec
        = some { ies with queueSize := kSizeOne } ∧
    (mitigateCycle opId prevOps visited st).metadataPolicy = MetadataPolicy.kUpdate ∧
    (mitigateCycle opId prevOps visited st).dataInputQueueSizes
        = st.dataInputQueueSizes ∧
    (opId ∈ prevOps →
      (mitigateCycle opId prevOps visited st).outputExec
        = st.outputExec.map (fun oes => { oes with conditionKind := ConditionType.kNone })) ∧
    (opId ∉ prevOps →
      (mitigateCycle opId prevOps visited st).outputExec = st.outputExec) := by
  have h1 : (detectCycleLoop opId visited prevOps).1 = true :=
    (detectCycleLoop_fst opId visited prevOps).mpr hfb
  obtain ⟨ie, oe, dq, mp⟩ := st
  simp only [OpPlanState.mk.injEq] at hexec ⊢
  cases hexec' : ie with
  | none => rw [hexec'] at hexec; exact absurd hexec (by simp)
  | some ies' =>
      rw [hexec'] at hexec
      have hies : ies' = ies := by simpa using hexec
      subst hies
      subst hexec'
      cases hr2 : (detectCycleLoop opId visited prevOps).2 with
      | true =>
          have hmem : opId ∈ prevOps := (detectCycleLoop_snd opId visited prevOps).mp hr2
          refine ⟨?_, ?_, ?_, ?_, ?_⟩ <;>
            simp [mitigateCycle, h1, hr2]
          intro h
          exact absurd hmem h
      | false =>
          have hmem : opId ∉ prevOps := by
            intro h
            rw [(detectCycleLoop_snd opId visited prevOps).mpr h] at hr2
            cases hr2
          refine ⟨?_, ?_, ?_, ?_, ?_⟩ <;>
            simp [mitigateCycle, h1, hr2]
          intro h
          exact absurd h hmem

theorem cycle_mitigation_with_exec_port_witness :
    (mitigateCycle 3 [3] []
        ⟨some ⟨0, ConditionType.kMessageAvailable⟩,
         some ⟨1, ConditionType.kDownstreamMessageAffordable⟩, [("in", 2)],
         MetadataPolicy.kRaise⟩).inputExec
        = some { queueSize := kSizeOne, conditionKind := ConditionType.kMessageAvailable } ∧
    (mitigateCycle 3 [3] []
        ⟨some ⟨0, ConditionType.kMessageAvailable⟩,
         some ⟨1, ConditionType.kDownstreamMessageAffordable⟩, [("in", 2)],
         MetadataPolicy.kRaise⟩).metadataPolicy = MetadataPolicy.kUpdate ∧
    (mitigateCycle 3 [3] []
        ⟨some ⟨0, ConditionType.kMessageAvailable⟩,
         some ⟨1, ConditionType.kDownstreamMessageAffordable⟩, [("in", 2)],
         MetadataPolicy.kRaise⟩).dataInputQueueSizes = [("in", 2)] ∧
    (3 ∈ [3] →
      (mitigateCycle 3 [3] []
        ⟨some ⟨0, ConditionType.kMessageAvailable⟩,
         some ⟨1, ConditionType.kDownstreamMessageAffordable⟩, [("in", 2)],
         MetadataPolicy.kRaise⟩).outputExec
        = (some ⟨1, ConditionType.kDownstreamMessageAffordable⟩ : Option ExecPortSpec).map
            (fun oes => { oes with conditionKind := ConditionType.kNone })) ∧
    (3 ∉ [3] →
      (mitigateCycle 3 [3] []
        ⟨some ⟨0, ConditionType.kMessageAvailable⟩,
         some ⟨1, ConditionType.kDownstreamMessageAffordable⟩, [("in", 2)],
         MetadataPolicy.kRaise⟩).outputExec
        = some ⟨1, ConditionType.kDownstreamMessageAffordable⟩) :=
  cycle_mitigation_with_exec_port 3 [3] []
    ⟨some ⟨0, ConditionType.kMessageAvailable⟩,
     some ⟨1, ConditionType.kDownstreamMessageAffordable⟩, [("in", 2)],
     MetadataPolicy.kRaise⟩ ⟨0, ConditionType.kMessageAvailable⟩ rfl
    ⟨3, by simp, Or.inl rfl⟩

/-- Claim C10: Evaluating the per-visit connection emission at a self-edge:
the predecessor loop does skip the self predecessor (no connection from that
pass), but the downstream-connection pass — run right after the operator is
initialized, so its id is no longer `-1` — emits the self-connection anyway,
contradicting the guard's stated purpose ("GXF has an issue with
self-connections"). -/
theorem self_edge_connection_emitted :
    predLoopConnections 1 [(1, [("out", ["in"])])] (fun _ => true) (fun _ => false)
        (fun _ _ => ConnectorType.kDefault) = [] ∧
    visitConnections 1 [(1, [("out", ["in"])])] [(1, [("out", ["in"])])]
        (fun _ => true) (fun _ => false) (fun _ _ => ConnectorType.kDefault)
      = [⟨1, "out", 1, "in"⟩] :=
  ⟨rfl, rfl⟩

/-! ### Thread-pool device validation (claim C9) -/

/-- Claim C9, counterexample: Two pools whose first conflicting operators differ
("A" with device 0 versus "C" with device 0) produce the *identical* error
value: the error carries only the pool name, the operator at which the
mismatch is detected ("B") and the two device ids — it cannot name the prior
conflicting operator, so the error does not name both conflicting
operators. -/
theorem device_conflict_error_names_single_operator :
    checkPoolDevices "pool" [⟨"A", some 0⟩, ⟨"B", some 1⟩]
        = Except.error ⟨"pool", "B", 1, 0⟩ ∧
    checkPoolDevices "pool" [⟨"C", some 0⟩, ⟨"B", some 1⟩]
        = Except.error ⟨"pool", "B", 1, 0⟩ ∧
    ("A" : String) ≠ "C" := by
  refine ⟨rfl, rfl, by decide⟩

theorem checkPoolDevicesLoop_error (poolName : String) :
    ∀ (ops : List ThreadPoolOp) (g : Int), 0 ≤ g →
      (∃ d ∈ presentDevIds ops, d ≠ g) →
      ∃ e, checkPoolDevicesLoop poolName g ops = Except.error e ∧
        e.poolName = poolName ∧
        (∃ o ∈ ops, o.name = e.opName ∧ o.devId = some e.currentDevId) ∧
        e.currentDevId ≠ e.priorDevId := by
  intro ops
  induction ops with
  | nil =>
      intro g _ h
      simp [presentDevIds] at h
  | cons op rest ih =>
      intro g hg h
      cases hop : op.devId with
      | none =>
          have h' : ∃ d ∈ presentDevIds rest, d ≠ g := by
            simpa [presentDevIds, hop] using h
          obtain ⟨e, he, h1, h2, h3⟩ := ih g hg h'
          refine ⟨e, ?_, h1, ?_, h3⟩
          · simp [checkPoolDevicesLoop, hop, he]
          · obtain ⟨o, ho, hh⟩ := h2
            exact ⟨o, List.mem_cons_of_mem _ ho, hh⟩
      | some d =>
          have hgne : g ≠ -1 := by omega
          by_cases hgd : g = d
          · subst hgd
            have h' : ∃ dd ∈ presentDevIds rest, dd ≠ g := by
              obtain ⟨dd, hdd, hne⟩ := h
              simp only [presentDevIds, List.filterMap_cons, hop] at hdd
              rcases List.mem_cons.mp hdd with hh | hh
              · subst hh; exact absurd rfl hne
              · exact ⟨dd, hh, hne⟩
            obtain ⟨e, he, h1, h2, h3⟩ := ih g hg h'
            refine ⟨e, ?_, h1, ?_, h3⟩
            · simp [checkPoolDevicesLoop, hop, hgne, he]
            · obtain ⟨o, ho, hh⟩ := h2
              exact ⟨o, List.mem_cons_of_mem _ ho, hh⟩
          · refine ⟨⟨poolName, op.name, d, g⟩, ?_, rfl,
              ⟨op, List.mem_cons_self _ _, rfl, hop⟩, ?_⟩
            · have hne : g ≠ d := hgd
              simp [checkPoolDevicesLoop, hop, hgne, hne]
            · intro hh
              exact hgd (by simpa using hh.symm)

/-- Claim C9, amended: If the members of a thread pool resolve to two distinct
(nonnegative) GPU device ids, the validation fails with a fatal error that
names the pool, the member operator at which the mismatch was detected (with
its device id), and the previously seen device id — the two ids differ. -/
theorem thread_pool_device_mismatch_raises (poolName : String)
    (ops : List ThreadPoolOp)
    (hvalid : ∀ o ∈ ops, ∀ d, o.devId = some d → 0 ≤ d)
    (hconf : ∃ d ∈ presentDevIds ops, ∃ dd ∈ presentDevIds ops, d ≠ dd) :
    ∃ e, checkPoolDevices poolName ops = Except.error e ∧
      e.poolName = poolName ∧
      (∃ o ∈ ops, o.name = e.opName ∧ o.devId = some e.currentDevId) ∧
      e.currentDevId ≠ e.priorDevId := by
  unfold checkPoolDevices
  induction ops with
  | nil =>
      simp [presentDevIds] at hconf
  | cons op rest ih =>
      cases hop : op.devId with
      | none =>
          have hvalid' : ∀ o ∈ rest, ∀ d, o.devId = some d → 0 ≤ d := fun o ho =>
            hvalid o (List.mem_cons_of_mem _ ho)
          have hconf' : ∃ d ∈ presentDevIds rest, ∃ dd ∈ presentDevIds rest, d ≠ dd := by
            simpa [presentDevIds, hop] using hconf
          obtain ⟨e, he, h1, h2, h3⟩ := ih hvalid' hconf'
          refine ⟨e, ?_, h1, ?_, h3⟩
          · simp [checkPoolDevicesLoop, hop, he]
          · obtain ⟨o, ho, hh⟩ := h2
            exact ⟨o, List.mem_cons_of_mem _ ho, hh⟩
      | some d =>
          have hd0 : 0 ≤ d := hvalid op (List.mem_cons_self _ _) d hop
          have h' : ∃ dd ∈ presentDevIds rest, dd ≠ d := by
            obtain ⟨x, hx, y, hy, hxy⟩ := hconf
            simp only [presentDevIds, List.filterMap_cons, hop] at hx hy
            rcases List.mem_cons.mp hx with hx' | hx' <;>
              rcases List.mem_cons.mp hy with hy' | hy'
            · subst hx'; subst hy'; exact absurd rfl hxy
            · subst hx'
              exact ⟨y, hy', fun hh => hxy (hh.symm)⟩
            · subst hy'
              exact ⟨x, hx', hxy⟩
            · by_cases hxd : x = d
              · subst hxd
                exact ⟨y, hy', fun hh => hxy hh.symm⟩
              · exact ⟨x, hx', hxd⟩
          obtain ⟨e, he, h1, h2, h3⟩ := checkPoolDevicesLoop_error poolName rest d hd0 h'
          refine ⟨e, ?_, h1, ?_, h3⟩
          · simp [checkPoolDevicesLoop, hop, he]
          · obtain ⟨o, ho, hh⟩ := h2
            exact ⟨o, List.mem_cons_of_mem _ ho, hh⟩

theorem thread_pool_device_mismatch_raises_witness :
    ∃ e, checkPoolDevices "pool0" [⟨"A", some 0⟩, ⟨"B", some 1⟩] = Except.error e ∧
      e.poolName = "pool0" ∧
      (∃ o ∈ [(⟨"A", some 0⟩ : ThreadPoolOp), ⟨"B", some 1⟩],
        o.name = e.opName ∧ o.devId = some e.currentDevId) ∧
      e.currentDevId ≠ e.priorDevId :=
  thread_pool_device_mismatch_raises "pool0" [⟨"A", some 0⟩, ⟨"B", some 1⟩]
    (by decide) ⟨0, by decide, 1, by decide, by decide⟩

/-! ### `add_flow` ambiguity handling (claim C8) -/

/-- Claim C8, counterexample: An empty-`port_pairs` edge whose upstream operator
has two output ports: `add_flow` logs an error naming the candidate output
ports and returns — no edge is added, but no exception is raised either, so
composition continues instead of aborting. -/
theorem ambiguity_logged_without_abort :
    (addFlowEmptyPortPairs "up" "down" true true ["out1", "out2"] ["in"] false).errorLog
        = some (AddFlowLog.ambiguousOutputs ["out1", "out2"]) ∧
    (addFlowEmptyPortPairs "up" "down" true true ["out1", "out2"] ["in"] false).portPairs
        = none ∧
    (addFlowEmptyPortPairs "up" "down" true true ["out1", "out2"] ["in"] false).raisedException
        = false :=
  ⟨rfl, rfl, rfl⟩

/-- Claim C8, amended: With empty `port_pairs` and a downstream operator that
has data inputs and no input execution port, an upstream operator with more
than one output port (or, failing that, a downstream operator with more than
one input port) makes `add_flow` log a structural error naming the candidate
ports and return without adding an edge; no exception escapes to the caller,
so composition continues. -/
theorem ambiguous_mapping_logs_candidates (upName downName : String)
    (upNative downNative : Bool) (upOutputs downInputs : List String)
    (downHasInputExec : Bool)
    (hne : downInputs ≠ []) (hexec : downHasInputExec = false) :
    (1 < upOutputs.length →
      addFlowEmptyPortPairs upName downName upNative downNative upOutputs downInputs
          downHasInputExec
        = ⟨none, some (AddFlowLog.ambiguousOutputs upOutputs), false⟩) ∧
    (upOutputs.length ≤ 1 → 1 < downInputs.length →
      addFlowEmptyPortPairs upName downName upNative downNative upOutputs downInputs
          downHasInputExec
        = ⟨none, some (AddFlowLog.ambiguousInputs downInputs), false⟩) := by
  subst hexec
  have hemp : downInputs.isEmpty = false := by
    cases downInputs with
    | nil => exact absurd rfl hne
    | cons a t => rfl
  constructor
  · intro h
    simp [addFlowEmptyPortPairs, hemp, h]
  · intro h1 h2
    have h1' : ¬ (1 < upOutputs.length) := by omega
    simp [addFlowEmptyPortPairs, hemp, h1', h2]

theorem ambiguous_mapping_logs_candidates_witness :
    (1 < (["o1", "o2"] : List String).length →
      addFlowEmptyPortPairs "a" "b" true true ["o1", "o2"] ["in"] false
        = ⟨none, some (AddFlowLog.ambiguousOutputs ["o1", "o2"]), false⟩) ∧
    ((["o1", "o2"] : List String).length ≤ 1 → 1 < (["in"] : List String).length →
      addFlowEmptyPortPairs "a" "b" true true ["o1", "o2"] ["in"] false
        = ⟨none, some (AddFlowLog.ambiguousInputs ["in"]), false⟩) :=
  ambiguous_mapping_logs_candidates "a" "b" true true ["o1", "o2"] ["in"] false
    (by decide) rfl

/-! ### Distributed lowering of a single boundary edge (claim C7) -/

/-- Claim C7: For a single edge crossing a deployment boundary: the transmitter
side creates one `VirtualTransmitterOp` and the flow source-op → transmitter,
and because the source port's connection count equals 1 the UCX connector is
set directly on the source's real output port; the receiver side creates one
`VirtualReceiverOp`, a `ForwardOp` whose `in` connector receives the UCX
connector, and the two flows receiver → forward.in and forward.out →
destination; and the single-target UCX source port gets no broadcast
entity. -/
theorem single_boundary_edge_lowering (o p o2 p2 : String)
    (q : String → String → Option Int)
    (hq : ∃ n : Int, q o2 p2 = some n ∧ n ≠ kAnySize) :
    lowerConnectionItems q [⟨o, p, IOType.kOutput⟩]
      = ⟨[⟨virtualOpName o p 0, p, VirtualOpKind.transmitter⟩],
         [⟨o, virtualOpName o p 0, [(p, p)]⟩], []⟩ ∧
    connectUcxTransmitters [⟨o, virtualOpName o p 0, [(p, p)]⟩]
        [⟨virtualOpName o p 0, p, VirtualOpKind.transmitter⟩]
      = [(o, p)] ∧
    lowerConnectionItems q [⟨o2, p2, IOType.kInput⟩]
      = ⟨[⟨virtualOpName o2 p2 0, p2, VirtualOpKind.receiver⟩],
         [⟨virtualOpName o2 p2 0, forwardOpName o2 p2 none, [(p2, "in")]⟩,
          ⟨forwardOpName o2 p2 none, o2, [("out", p2)]⟩],
         [forwardOpName o2 p2 none]⟩ ∧
    planOpBroadcasts false [⟨p, ConnectorType.kUCX, 1, defaultQueuePolicy, none⟩]
        [(7, true, [(p, [p])])] = [] := by
  obtain ⟨n, hqe, hne⟩ := hq
  refine ⟨?_, ?_, ?_, ?_⟩
  · simp [lowerConnectionItems, lowerConnectionItemsGo, lowerItem]
  · simp [connectUcxTransmitters, countPortConnections]
  · simp [lowerConnectionItems, lowerConnectionItemsGo, lowerItem, hqe, hne]
  · simp [planOpBroadcasts, buildConnections, addPortMapConns, addEntryTargets,
      addConnTarget, findOutPort, targetHasUcxConnector, createBroadcastComponents]

theorem single_boundary_edge_lowering_witness :
    lowerConnectionItems (fun _ _ => some 1) [⟨"op1", "out", IOType.kOutput⟩]
      = ⟨[⟨virtualOpName "op1" "out" 0, "out", VirtualOpKind.transmitter⟩],
         [⟨"op1", virtualOpName "op1" "out" 0, [("out", "out")]⟩], []⟩ ∧
    connectUcxTransmitters [⟨"op1", virtualOpName "op1" "out" 0, [("out", "out")]⟩]
        [⟨virtualOpName "op1" "out" 0, "out", VirtualOpKind.transmitter⟩]
      = [("op1", "out")] ∧
    lowerConnectionItems (fun _ _ => some 1) [⟨"op2", "in", IOType.kInput⟩]
      = ⟨[⟨virtualOpName "op2" "in" 0, "in", VirtualOpKind.receiver⟩],
         [⟨virtualOpName "op2" "in" 0, forwardOpName "op2" "in" none, [("in", "in")]⟩,
          ⟨forwardOpName "op2" "in" none, "op2", [("out", "in")]⟩],
         [forwardOpName "op2" "in" none]⟩ ∧
    planOpBroadcasts false [⟨"out", ConnectorType.kUCX, 1, defaultQueuePolicy, none⟩]
        [(7, true, [("out", ["out"])])] = [] :=
  single_boundary_edge_lowering "op1" "out" "op2" "in" (fun _ _ => some 1)
    ⟨1, rfl, by decide⟩

/-! ### Broadcast insertion (claim C1) -/

theorem addConnTarget_keys (l : List ConnEntry) (port : String) (ct : ConnectorType)
    (t : Nat × String) :
    (addConnTarget l port ct t).map (fun c => c.1)
      = if port ∈ l.map (fun c => c.1) then l.map (fun c => c.1)
        else l.map (fun c => c.1) ++ [port] := by
  induction l with
  | nil => simp [addConnTarget]
  | cons c rest ih =>
      by_cases hc : c.1 = port
      · simp [addConnTarget, hc]
      · have hc' : port ≠ c.1 := fun h => hc h.symm
        by_cases hm : port ∈ rest.map (fun c => c.1)
        · simp [addConnTarget, hc, ih, hm, hc']
        · simp [addConnTarget, hc, ih, hm, hc']

theorem addConnTarget_keys_nodup (l : List ConnEntry) (port : String)
    (ct : ConnectorType) (t : Nat × String)
    (h : (l.map (fun c => c.1)).Nodup) :
    ((addConnTarget l port ct t).map (fun c => c.1)).Nodup := by
  rw [addConnTarget_keys]
  by_cases hm : port ∈ l.map (fun c => c.1)
  · rw [if_pos hm]; exact h
  · rw [if_neg hm, List.nodup_append]
    refine ⟨h, List.nodup_singleton _, ?_⟩
    intro a ha hb
    simp only [List.mem_singleton] at hb
    subst hb
    exact hm ha

theorem addEntryTargets_keys_nodup (port : String) (ct : ConnectorType) (nextOp : Nat) :
    ∀ (ts : List String) (acc : List ConnEntry),
      ((acc.map (fun c => c.1)).Nodup) →
      (((addEntryTargets acc port ct nextOp ts).map (fun c => c.1)).Nodup) := by
  intro ts
  induction ts with
  | nil => intro acc h; exact h
  | cons t rest ih =>
      intro acc h
      exact ih _ (addConnTarget_keys_nodup acc port ct (nextOp, t) h)

theorem addPortMapConns_keys_nodup (outPorts : List OutPortState) (nextOp : Nat) :
    ∀ (pm : PortMap) (acc : List ConnEntry),
      ((acc.map (fun c => c.1)).Nodup) →
      (((addPortMapConns outPorts acc nextOp pm).map (fun c => c.1)).Nodup) := by
  intro pm
  induction pm with
  | nil => intro acc h; exact h
  | cons entry rest ih =>
      intro acc h
      exact ih _ (addEntryTargets_keys_nodup entry.1 _ nextOp entry.2 acc h)

theorem buildConnections_keys_nodup (opVirtual : Bool) (outPorts : List OutPortState) :
    ∀ (succs : List (Nat × Bool × PortMap)) (acc : List ConnEntry),
      ((acc.map (fun c => c.1)).Nodup) →
      (((buildConnections opVirtual outPorts succs acc).map (fun c => c.1)).Nodup) := by
  intro succs
  induction succs with
  | nil => intro acc h; exact h
  | cons su rest ih =>
      intro acc h
      by_cases hv : opVirtual
      · simpa [buildConnections, hv] using ih acc (by simpa using h)
      · simpa [buildConnections, hv] using
          ih _ (addPortMapConns_keys_nodup outPorts su.1 su.2.2 acc h)

theorem mem_createBroadcastComponents_port (outPorts : List OutPortState)
    (conns : List ConnEntry) (b : BroadcastEntity)
    (hb : b ∈ createBroadcastComponents outPorts conns) :
    b.port ∈ conns.map (fun c => c.1) := by
  obtain ⟨c, hc, heq⟩ := List.mem_filterMap.mp hb
  by_cases hlen : c.2.2.length ≤ 1
  · rw [if_pos hlen] at heq
    cases heq
  · rw [if_neg hlen] at heq
    have : b.port = c.1 := by
      cases heq
      rfl
    rw [this]
    exact List.mem_map.mpr ⟨c, hc, rfl⟩

theorem createBroadcast_of_entry (outPorts : List OutPortState)
    (conns : List ConnEntry) (port : String) (ct : ConnectorType)
    (targets : List (Nat × String))
    (hnd : (conns.map (fun c => c.1)).Nodup)
    (hmem : (port, ct, targets) ∈ conns) (hfan : 2 ≤ targets.length) :
    (createBroadcastComponents outPorts conns).filter (fun b => b.port = port)
      = [⟨port,
          ((findOutPort outPorts port).map (fun ps => ps.capacity)).getD 1,
          ((findOutPort outPorts port).map (fun ps => ps.policy)).getD defaultQueuePolicy,
          ((findOutPort outPorts port).bind (fun ps => ps.condMinSize)).getD 1⟩] := by
  induction conns with
  | nil => cases hmem
  | cons c rest ih =>
      simp only [List.map_cons, List.nodup_cons] at hnd
      obtain ⟨hkey, hrest⟩ := hnd
      rcases List.mem_cons.mp hmem with hh | hh
      · subst hh
        have hlen : ¬ ((port, ct, targets).2.2.length ≤ 1) := by
          simp only []
          omega
        have hnone : (createBroadcastComponents outPorts rest).filter
            (fun b => b.port = port) = [] := by
          rw [List.filter_eq_nil_iff]
          intro b hb
          simp only [decide_eq_true_eq]
          intro hbp
          exact hkey (hbp ▸ mem_createBroadcastComponents_port outPorts rest b hb)
        simp only [createBroadcastComponents, List.filterMap_cons, if_neg hlen]
        rw [List.filter_cons_of_pos (by simp)]
        rw [show List.filterMap _ rest = createBroadcastComponents outPorts rest from rfl,
          hnone]
      · have hkey' : c.1 ≠ port := by
          intro he
          exact hkey (he ▸ List.mem_map.mpr ⟨(port, ct, targets), hh, rfl⟩)
        have htail := ih hrest hh
        simp only [createBroadcastComponents, List.filterMap_cons]
        by_cases hlen : c.2.2.length ≤ 1
        · rw [if_pos hlen]
          exact htail
        · rw [if_neg hlen, List.filter_cons_of_neg (by simp [hkey'])]
          exact htail

/-- Claim C1, counterexample: A fan-out output port with two distinct
destinations, on an operator with no UCX-connector output connection and no
virtual successor: the connection map records the two targets, yet *no*
broadcast entity is inserted (the two destinations are wired directly
instead), contradicting the claim that one broadcast node is inserted for
every such fan-out regardless of transport. -/
theorem fanout_without_ucx_gets_no_broadcast :
    ((buildConnections false [⟨"out", ConnectorType.kDefault, 2, 0, some 1⟩]
        [(1, false, [("out", ["in"])]), (2, false, [("out", ["in"])])] []).map
      (fun c => (c.1, c.2.2.length))) = [("out", 2)] ∧
    planOpBroadcasts false [⟨"out", ConnectorType.kDefault, 2, 0, some 1⟩]
        [(1, false, [("out", ["in"])]), (2, false, [("out", ["in"])])] = [] ∧
    downstreamConnections 0 [(1, [("out", ["in"])]), (2, [("out", ["in"])])]
        (fun _ => true) (fun _ => false) (fun _ _ => ConnectorType.kDefault)
      = [⟨0, "out", 1, "in"⟩, ⟨0, "out", 2, "in"⟩] :=
  ⟨rfl, rfl, rfl⟩

/-- Claim C1, amended: When the visited operator satisfies
`target_op_has_ucx_connector` (some collected output connection has a UCX
connector, or some successor is a virtual operator), every output port whose
collected target set has at least two distinct (operator, port) destinations
gets exactly one broadcast entity; its single receiver replicates the source
connector's capacity and overflow policy and the source port's
downstream-affordable `min_size`, and each per-destination transmitter's
scheduling term carries the source port's downstream-affordable `min_size` —
the value the corresponding direct edge would have carried. -/
theorem broadcast_insertion_on_ucx_path (opVirtual : Bool)
    (outPorts : List OutPortState) (succs : List (Nat × Bool × PortMap))
    (port : String) (ct : ConnectorType) (targets : List (Nat × String))
    (ps : OutPortState)
    (hmem : (port, ct, targets) ∈ buildConnections opVirtual outPorts succs [])
    (hfan : 2 ≤ targets.length)
    (hucx : targetHasUcxConnector (buildConnections opVirtual outPorts succs []) succs
      = true)
    (hps : findOutPort outPorts port = some ps) :
    (planOpBroadcasts opVirtual outPorts succs).filter (fun b => b.port = port)
      = [⟨port, ps.capacity, ps.policy, ps.condMinSize.getD 1⟩] ∧
    broadcastTxMinSizes ps targets = targets.map (fun t => (t, ps.condMinSize)) := by
  constructor
  · have hnd := buildConnections_keys_nodup opVirtual outPorts succs [] (by simp)
    have h := createBroadcast_of_entry outPorts
      (buildConnections opVirtual outPorts succs []) port ct targets hnd hmem hfan
    rw [hps] at h
    simp only [Option.map_some, Option.some_bind, Option.getD_some] at h
    unfold planOpBroadcasts
    rw [if_pos hucx]
    exact h
  · rfl

theorem broadcast_insertion_on_ucx_path_witness :
    (planOpBroadcasts false [⟨"out", ConnectorType.kUCX, 3, 1, some 2⟩]
        [(1, false, [("out", ["in"])]), (2, false, [("out", ["in"])])]).filter
      (fun b => b.port = "out")
      = [⟨"out", 3, 1, (some 2 : Option Nat).getD 1⟩] ∧
    broadcastTxMinSizes ⟨"out", ConnectorType.kUCX, 3, 1, some 2⟩ [(1, "in"), (2, "in")]
      = [(1, "in"), (2, "in")].map (fun t => (t, some 2)) :=
  broadcast_insertion_on_ucx_path false [⟨"out", ConnectorType.kUCX, 3, 1, some 2⟩]
    [(1, false, [("out", ["in"])]), (2, false, [("out", ["in"])])]
    "out" ConnectorType.kUCX [(1, "in"), (2, "in")]
    ⟨"out", ConnectorType.kUCX, 3, 1, some 2⟩
    (by decide) (by decide) (by decide) (by decide)

end Holoscan
